import Mathlib

/-!
Verification of the Thurstonian utility model notebook (`thurstonian_model.ipynb`).

The embedding below follows the notebook's code cells: the maximum-likelihood
objective `neg_log_likelihood` (cell 2, including the mutable μ/σ dictionary
updates, modelled as function updates), the validation and unpacking around
`scipy.optimize.minimize` (modelled by `fit`, parametric in the optimizer),
and the diagnostic helpers `calculate_pairwise_prob` and
`calculate_cross_entropy` (cell 8).  Floating-point numbers are embedded as
real numbers; `scipy.stats.norm.cdf` is embedded as the standard normal CDF
`normCdf`; Python's zero-division failure is embedded with `Option`.
-/

open MeasureTheory Set intervalIntegral

noncomputable section

/-- A comparison record `(Option A, Option B, Chosen Option)` from the data list. -/
structure Comparison where
  A : String
  B : String
  chosen : String
deriving DecidableEq, Repr

/-- The constant `epsilon = 1e-10` ("Small constant for numerical stability"). -/
def epsilon : ℝ := 1e-10

/-- Unnormalised standard normal density `exp (-t^2 / 2)`. -/
def stdGaussian (t : ℝ) : ℝ := Real.exp (-t ^ 2 / 2)

/-- Standard normal CDF: embedding of `scipy.stats.norm.cdf`. -/
def normCdf (x : ℝ) : ℝ := (∫ t in Iic x, stdGaussian t) / Real.sqrt (2 * Real.pi)

/-- All tokens appearing in the first two positions of the records:
`[item for sublist in data for item in sublist[:2]]`. -/
def optionTokens (data : List Comparison) : List String :=
  data.flatMap (fun c => [c.A, c.B])

/-- The number of distinct options, `len(set(...))`. -/
def numOptions (data : List Comparison) : ℕ :=
  (optionTokens data).dedup.length

/-- `options = list(set(...))`: CPython materialises the set in its (hash-dependent)
iteration order, so the embedding says only that the extracted list enumerates the
distinct tokens exactly once, in some order: it is a permutation of the
deduplicated token list. -/
def validExtraction (data : List Comparison) (options : List String) : Prop :=
  options.Perm (optionTokens data).dedup

/-- The message of the only `raise ValueError(...)` in the notebook. -/
def validationMessage : String := "Insufficient unique options in the data"

/-- The dictionary-update loop `for i, opt in enumerate(options): mu[opt] = params[i]`,
with `i` threaded as an accumulator and the dictionary as a function. -/
def muAux (params : List ℝ) : List String → ℕ → (String → ℝ) → (String → ℝ)
  | [], _, m => m
  | o :: os, i, m => muAux params os (i + 1) (Function.update m o (params.getD i 0))

/-- The loop `sigma[opt] = np.exp(params[i + len(options)])`, with `n = len(options)`. -/
def sigmaAux (params : List ℝ) (n : ℕ) : List String → ℕ → (String → ℝ) → (String → ℝ)
  | [], _, m => m
  | o :: os, i, m =>
      sigmaAux params n os (i + 1) (Function.update m o (Real.exp (params.getD (i + n) 0)))

/-- Embedding of `neg_log_likelihood(params)` from cell 2, with the notebook's
globals `options` and `data` passed explicitly.  The initial dictionaries are
`mu = {opt: 0 ...}` and `sigma = {opt: 1.0 ...}`, overwritten by the loop. -/
def neg_log_likelihood (options : List String) (data : List Comparison)
    (params : List ℝ) : ℝ :=
  let mu := muAux params options 0 (fun _ => 0)
  let sigma := sigmaAux params options.length options 0 (fun _ => 1)
  let likelihood := data.foldl (fun acc c =>
    let mu_diff := mu c.A - mu c.B
    let sigma_sum := Real.sqrt (sigma c.A ^ 2 + sigma c.B ^ 2)
    let prob_A := normCdf (mu_diff / (sigma_sum + epsilon))
    acc + Real.log (if c.chosen = c.A then prob_A else 1 - prob_A + epsilon)) 0;
  -likelihood

/-- The spec's reading of the objective: interpreting the first `n` entries of the
parameter vector as μ and `exp` of the last `n` entries as σ (indexed by the
option's position in `options`), it is the sum over records of `-log p` when
`chosen == A` and `-log (1 - p + ε)` otherwise, with `p = Φ(d / s)`,
`d = μ[A] - μ[B]`, `s = sqrt(σ[A]² + σ[B]²) + ε`. -/
def nll_spec (options : List String) (data : List Comparison) (params : List ℝ) : ℝ :=
  (data.map (fun c =>
    let mu := fun o => params.getD (options.indexOf o) 0
    let sigma := fun o => Real.exp (params.getD (options.length + options.indexOf o) 0)
    let d := mu c.A - mu c.B
    let s := Real.sqrt (sigma c.A ^ 2 + sigma c.B ^ 2) + epsilon
    let p := normCdf (d / s)
    if c.chosen = c.A then -Real.log p else -Real.log (1 - p + epsilon))).sum

/-- Embedding of the validation and unpacking around `scipy.optimize.minimize`:
the optimizer itself is a parameter (`optimize`), applied only after the
`len(options) < 2` check; `mu_estimates = result.x[:n]`,
`sigma_estimates = np.exp(result.x[n:])`. -/
def fit (optimize : List String → List ℝ) (options : List String) :
    Except String (List ℝ × List ℝ) :=
  if options.length < 2 then Except.error validationMessage
  else
    let x := optimize options
    Except.ok (x.take options.length, (x.drop options.length).map Real.exp)

/-- Embedding of `calculate_pairwise_prob` from cell 8 (note: no epsilon here). -/
def calculate_pairwise_prob (mu_X mu_Y sigma_X sigma_Y : ℝ) : ℝ :=
  normCdf ((mu_X - mu_Y) / Real.sqrt (sigma_X ^ 2 + sigma_Y ^ 2))

/-- Python float division, which raises `ZeroDivisionError` on a zero denominator. -/
def pydiv (a : ℝ) (n : ℕ) : Option ℝ :=
  if n = 0 then none else some (a / n)

/-- Embedding of `calculate_cross_entropy(data, mu, sigma)` from cell 8:
accumulates `-(y*log(p) + (1-y)*log(1-p))` (no epsilon in either logarithm)
and divides by `len(data)`. -/
def calculate_cross_entropy (data : List Comparison) (mu sigma : String → ℝ) : Option ℝ :=
  let total := data.foldl (fun acc c =>
    let p := calculate_pairwise_prob (mu c.A) (mu c.B) (sigma c.A) (sigma c.B)
    let y : ℝ := if c.chosen = c.A then 1 else 0
    acc - (y * Real.log p + (1 - y) * Real.log (1 - p))) 0
  pydiv total data.length

/-- Modelled from the spec: the spec's §4.3 wording of the cross-entropy body,
"applying an additive epsilon inside the logarithms to avoid `log(0)`" — a
variant of `calculate_cross_entropy` whose logarithms read `log (p + ε)` and
`log (1 - p + ε)`.  Used only to compare against the code's actual body. -/
def calculate_cross_entropy_specEps (data : List Comparison) (mu sigma : String → ℝ) :
    Option ℝ :=
  let total := data.foldl (fun acc c =>
    let p := calculate_pairwise_prob (mu c.A) (mu c.B) (sigma c.A) (sigma c.B)
    let y : ℝ := if c.chosen = c.A then 1 else 0
    acc - (y * Real.log (p + epsilon) + (1 - y) * Real.log (1 - p + epsilon))) 0
  pydiv total data.length

/-- Per-record binary cross-entropy term, as accumulated by the code. -/
def ceTerm (mu sigma : String → ℝ) (c : Comparison) : ℝ :=
  let p := calculate_pairwise_prob (mu c.A) (mu c.B) (sigma c.A) (sigma c.B)
  let y : ℝ := if c.chosen = c.A then 1 else 0;
  -(y * Real.log p + (1 - y) * Real.log (1 - p))

/-- The ten comparison records of the worked example (cell 2). -/
def exampleData : List Comparison :=
  [⟨"B", "A", "B"⟩, ⟨"A", "C", "C"⟩, ⟨"B", "C", "B"⟩, ⟨"A", "B", "A"⟩,
   ⟨"C", "A", "C"⟩, ⟨"C", "B", "B"⟩, ⟨"B", "A", "B"⟩, ⟨"A", "C", "A"⟩,
   ⟨"C", "B", "C"⟩, ⟨"A", "B", "B"⟩]

/-- The fitted means recorded in the source (cell 8):
`mu = {'A': -0.57, 'B': 0.57, 'C': 0.00}`. -/
def fittedMu : String → ℝ := fun o =>
  if o = "A" then -0.57 else if o = "B" then 0.57 else if o = "C" then 0 else 0

/-- The fitted standard deviations recorded in the source (cell 8):
`sigma = {'A': 1.20, 'B': 1.20, 'C': 0.57}`. -/
def fittedSigma : String → ℝ := fun o =>
  if o = "A" then 1.20 else if o = "B" then 1.20 else if o = "C" then 0.57 else 1

end

lemma integrable_stdGaussian : Integrable stdGaussian := by
  have h := integrable_exp_neg_mul_sq (b := (1/2 : ℝ)) (by norm_num)
  have he : ∀ t : ℝ, Real.exp (-(1/2 : ℝ) * t ^ 2) = stdGaussian t := by
    intro t
    simp only [stdGaussian]
    ring_nf
  simpa only [he] using h

lemma sqrt_two_pi_pos : 0 < Real.sqrt (2 * Real.pi) :=
  Real.sqrt_pos.mpr (by positivity)

lemma integral_stdGaussian : (∫ t : ℝ, stdGaussian t) = Real.sqrt (2 * Real.pi) := by
  have h := integral_gaussian (1/2 : ℝ)
  have he : ∀ t : ℝ, Real.exp (-(1/2 : ℝ) * t ^ 2) = stdGaussian t := by
    intro t
    simp only [stdGaussian]
    ring_nf
  simp only [he] at h
  rw [h]
  congr 1
  ring

lemma stdGaussian_pos (t : ℝ) : 0 < stdGaussian t := Real.exp_pos _

lemma stdGaussian_le_one (t : ℝ) : stdGaussian t ≤ 1 := by
  simp only [stdGaussian]
  rw [Real.exp_le_one_iff]
  nlinarith [sq_nonneg t]

lemma stdGaussian_even (t : ℝ) : stdGaussian (-t) = stdGaussian t := by
  simp [stdGaussian, neg_sq]

lemma intervalIntegrable_stdGaussian (a b : ℝ) :
    IntervalIntegrable stdGaussian volume a b :=
  integrable_stdGaussian.intervalIntegrable

lemma normCdf_add_neg (x : ℝ) : normCdf x + normCdf (-x) = 1 := by
  have h2 : (∫ t in Iic (-x), stdGaussian (-t)) = ∫ t in Ioi x, stdGaussian t := by
    simpa using integral_comp_neg_Iic (-x) stdGaussian
  have h3 : (∫ t in Iic (-x), stdGaussian (-t)) = ∫ t in Iic (-x), stdGaussian t := by
    simp only [stdGaussian_even]
  have h4 : (∫ t in Iic x, stdGaussian t) + (∫ t in Ioi x, stdGaussian t)
      = ∫ t : ℝ, stdGaussian t :=
    integral_Iic_add_Ioi integrable_stdGaussian.integrableOn
      integrable_stdGaussian.integrableOn
  simp only [normCdf]
  rw [div_add_div_same, ← h3, h2, h4, integral_stdGaussian,
    div_self (ne_of_gt sqrt_two_pi_pos)]

lemma normCdf_zero : normCdf 0 = 1 / 2 := by
  have h := normCdf_add_neg 0
  rw [neg_zero] at h
  linarith

lemma normCdf_sub (a b : ℝ) :
    normCdf b - normCdf a = (∫ t in a..b, stdGaussian t) / Real.sqrt (2 * Real.pi) := by
  simp only [normCdf]
  rw [div_sub_div_same,
    integral_Iic_sub_Iic integrable_stdGaussian.integrableOn
      integrable_stdGaussian.integrableOn]

lemma normCdf_strictMono : StrictMono normCdf := by
  intro a b hab
  have h := normCdf_sub a b
  have hpos : 0 < ∫ t in a..b, stdGaussian t :=
    intervalIntegral_pos_of_pos (intervalIntegrable_stdGaussian a b)
      (fun t => stdGaussian_pos t) hab
  have hdiv := div_pos hpos sqrt_two_pi_pos
  linarith

lemma normCdf_pos (x : ℝ) : 0 < normCdf x := by
  have h := normCdf_sub (x - 1) x
  have hpos : 0 < ∫ t in (x - 1)..x, stdGaussian t :=
    intervalIntegral_pos_of_pos (intervalIntegrable_stdGaussian _ _)
      (fun t => stdGaussian_pos t) (by linarith)
  have hn : 0 ≤ normCdf (x - 1) := by
    simp only [normCdf]
    apply div_nonneg _ (le_of_lt sqrt_two_pi_pos)
    exact setIntegral_nonneg measurableSet_Iic (fun t _ => (stdGaussian_pos t).le)
  have hdiv := div_pos hpos sqrt_two_pi_pos
  linarith

lemma normCdf_lt_one (x : ℝ) : normCdf x < 1 := by
  have h := normCdf_add_neg x
  have h2 := normCdf_pos (-x)
  linarith

lemma one_sub_normCdf (x : ℝ) : 1 - normCdf x = normCdf (-x) := by
  have h := normCdf_add_neg x
  linarith

lemma normCdf_eq_half_add (z : ℝ) :
    normCdf z = 1 / 2 + (∫ t in (0:ℝ)..z, stdGaussian t) / Real.sqrt (2 * Real.pi) := by
  have h := normCdf_sub 0 z
  rw [normCdf_zero] at h
  linarith

lemma normCdf_ge_of_nonneg (z : ℝ) (hz : 0 ≤ z) :
    1 / 2 + z * stdGaussian z / Real.sqrt (2 * Real.pi) ≤ normCdf z := by
  rw [normCdf_eq_half_add z]
  have h1 : (∫ _ in (0:ℝ)..z, stdGaussian z) ≤ ∫ t in (0:ℝ)..z, stdGaussian t := by
    apply integral_mono_on hz intervalIntegrable_const (intervalIntegrable_stdGaussian 0 z)
    intro t ht
    simp only [stdGaussian]
    apply Real.exp_le_exp.mpr
    have h2 : t ^ 2 ≤ z ^ 2 := pow_le_pow_left ht.1 ht.2 2
    linarith
  rw [intervalIntegral.integral_const] at h1
  have hint : z * stdGaussian z ≤ ∫ t in (0:ℝ)..z, stdGaussian t := by
    simpa [smul_eq_mul] using h1
  have := (div_le_div_right sqrt_two_pi_pos).mpr hint
  linarith

lemma normCdf_le_of_nonneg (z : ℝ) (hz : 0 ≤ z) :
    normCdf z ≤ 1 / 2 + z / Real.sqrt (2 * Real.pi) := by
  rw [normCdf_eq_half_add z]
  have h1 : (∫ t in (0:ℝ)..z, stdGaussian t) ≤ ∫ _ in (0:ℝ)..z, (1:ℝ) := by
    apply integral_mono_on hz (intervalIntegrable_stdGaussian 0 z) intervalIntegrable_const
    intro t _
    exact stdGaussian_le_one t
  have hint : (∫ t in (0:ℝ)..z, stdGaussian t) ≤ z := by
    simpa using h1
  have := (div_le_div_right sqrt_two_pi_pos).mpr hint
  linarith

lemma normCdf_neg_ge (z : ℝ) (hz : 0 ≤ z) :
    1 / 2 - z / Real.sqrt (2 * Real.pi) ≤ normCdf (-z) := by
  have h1 := one_sub_normCdf z
  have h2 := normCdf_le_of_nonneg z hz
  linarith

lemma sqrt_two_pi_lt : Real.sqrt (2 * Real.pi) < 2.50664 := by
  have h := Real.pi_lt_d6
  apply (Real.sqrt_lt' (by norm_num)).mpr
  nlinarith

lemma sqrt_two_pi_gt : (2.50662 : ℝ) < Real.sqrt (2 * Real.pi) := by
  have h := Real.pi_gt_d6
  apply (Real.lt_sqrt (by norm_num)).mpr
  nlinarith

lemma muAux_not_mem (params : List ℝ) (os : List String) (i : ℕ) (m : String → ℝ)
    (a : String) (ha : a ∉ os) : muAux params os i m a = m a := by
  induction os generalizing i m with
  | nil => rfl
  | cons o os ih =>
    simp only [List.mem_cons, not_or] at ha
    simp only [muAux]
    rw [ih _ _ ha.2, Function.update_noteq ha.1]

lemma sigmaAux_not_mem (params : List ℝ) (n : ℕ) (os : List String) (i : ℕ)
    (m : String → ℝ) (a : String) (ha : a ∉ os) : sigmaAux params n os i m a = m a := by
  induction os generalizing i m with
  | nil => rfl
  | cons o os ih =>
    simp only [List.mem_cons, not_or] at ha
    simp only [sigmaAux]
    rw [ih _ _ ha.2, Function.update_noteq ha.1]

lemma muAux_eq (params : List ℝ) (os : List String) (i : ℕ) (m : String → ℝ)
    (a : String) (hnd : os.Nodup) (ha : a ∈ os) :
    muAux params os i m a = params.getD (i + os.indexOf a) 0 := by
  induction os generalizing i m with
  | nil => cases ha
  | cons o os ih =>
    obtain ⟨ho, hnd'⟩ := List.nodup_cons.mp hnd
    by_cases h : a = o
    · subst h
      simp only [muAux]
      rw [muAux_not_mem _ _ _ _ _ ho, Function.update_same, List.indexOf_cons_self]
      norm_num
    · have ha' : a ∈ os := by
        rcases List.mem_cons.mp ha with h1 | h1
        · exact absurd h1 h
        · exact h1
      simp only [muAux]
      rw [ih _ _ hnd' ha', List.indexOf_cons_ne _ (fun he => h he.symm)]
      congr 1
      omega

lemma sigmaAux_eq (params : List ℝ) (n : ℕ) (os : List String) (i : ℕ) (m : String → ℝ)
    (a : String) (hnd : os.Nodup) (ha : a ∈ os) :
    sigmaAux params n os i m a = Real.exp (params.getD (i + os.indexOf a + n) 0) := by
  induction os generalizing i m with
  | nil => cases ha
  | cons o os ih =>
    obtain ⟨ho, hnd'⟩ := List.nodup_cons.mp hnd
    by_cases h : a = o
    · subst h
      simp only [sigmaAux]
      rw [sigmaAux_not_mem _ _ _ _ _ _ ho, Function.update_same, List.indexOf_cons_self]
      norm_num
    · have ha' : a ∈ os := by
        rcases List.mem_cons.mp ha with h1 | h1
        · exact absurd h1 h
        · exact h1
      simp only [sigmaAux]
      rw [ih _ _ hnd' ha', List.indexOf_cons_ne _ (fun he => h he.symm)]
      congr 2
      omega

lemma foldl_add_sum {α : Type} (g : α → ℝ) (l : List α) : ∀ a : ℝ,
    List.foldl (fun acc c => acc + g c) a l = a + (l.map g).sum := by
  induction l with
  | nil => intro a; simp
  | cons c l ih => intro a; simp only [List.foldl_cons, List.map_cons, List.sum_cons, ih]; ring

lemma foldl_sub_sum {α : Type} (g : α → ℝ) (l : List α) : ∀ a : ℝ,
    List.foldl (fun acc c => acc - g c) a l = a - (l.map g).sum := by
  induction l with
  | nil => intro a; simp
  | cons c l ih => intro a; simp only [List.foldl_cons, List.map_cons, List.sum_cons, ih]; ring

lemma sum_map_neg {α : Type} (g : α → ℝ) (l : List α) :
    (l.map (fun c => -(g c))).sum = -((l.map g).sum) := by
  induction l with
  | nil => simp
  | cons c l ih => simp [ih]; ring

lemma ce_foldl (mu sigma : String → ℝ) (l : List Comparison) : ∀ a : ℝ,
    List.foldl (fun acc c =>
      let p := calculate_pairwise_prob (mu c.A) (mu c.B) (sigma c.A) (sigma c.B)
      let y : ℝ := if c.chosen = c.A then 1 else 0
      acc - (y * Real.log p + (1 - y) * Real.log (1 - p))) a l
    = a + (l.map (ceTerm mu sigma)).sum := by
  induction l with
  | nil => intro a; simp
  | cons c l ih =>
    intro a
    simp only [List.foldl_cons, List.map_cons, List.sum_cons, ih, ceTerm]
    ring

lemma calculate_cross_entropy_eq (data : List Comparison) (mu sigma : String → ℝ)
    (h : data ≠ []) :
    calculate_cross_entropy data mu sigma =
      some ((data.map (ceTerm mu sigma)).sum / data.length) := by
  have hlen : data.length ≠ 0 := fun hc => h (List.length_eq_zero.mp hc)
  simp only [calculate_cross_entropy, pydiv, if_neg hlen]
  rw [ce_foldl]
  norm_num

/-- C5: fitting the empty comparison list, or any list with fewer than 2 distinct
options among the first two positions of its records, fails with the
ValidationError (`ValueError("Insufficient unique options in the data")`)
before any optimization is attempted — the result is the error for every
possible optimizer. -/
theorem C5_insufficient_data_rejected (data : List Comparison) (os : List String)
    (hval : validExtraction data os) (h : data = [] ∨ numOptions data < 2) :
    ∀ optimize : List String → List ℝ,
      fit optimize os = Except.error validationMessage := by
  intro optimize
  have hlen : os.length = numOptions data := hval.length_eq
  have h2 : os.length < 2 := by
    rcases h with h | h
    · subst h
      have : numOptions [] = 0 := by simp [numOptions, optionTokens]
      omega
    · omega
  simp [fit, h2]

/-- Witness for C5 at the empty list. -/
theorem C5_insufficient_data_rejected_witness :
    fit (fun _ => ([] : List ℝ)) [] = Except.error validationMessage :=
  C5_insufficient_data_rejected [] []
    (by simp [validExtraction, optionTokens])
    (Or.inl rfl) _

/-- C10: `calculate_cross_entropy` divides the accumulated total by `len(data)`,
so on the empty comparison list it fails with a zero division (no real number is
returned) for every parameter mapping, while on any non-empty list it returns a
real number: totality needs the non-emptiness precondition. -/
theorem C10_cross_entropy_empty_division (mu0 sigma0 : String → ℝ) :
    calculate_cross_entropy [] mu0 sigma0 = none ∧
    (∀ (data : List Comparison) (mu sigma : String → ℝ), data ≠ [] →
      ∃ r : ℝ, calculate_cross_entropy data mu sigma = some r) := by
  constructor
  · simp [calculate_cross_entropy, pydiv]
  · intro data mu sigma h
    exact ⟨_, calculate_cross_entropy_eq data mu sigma h⟩

/-- Witness for C10 at concrete inputs. -/
theorem C10_cross_entropy_empty_division_witness :
    calculate_cross_entropy [] (fun _ => 0) (fun _ => 1) = none ∧
    ∃ r : ℝ, calculate_cross_entropy [⟨"A", "B", "A"⟩] (fun _ => 0) (fun _ => 1) = some r :=
  ⟨(C10_cross_entropy_empty_division (fun _ => 0) (fun _ => 1)).1,
   (C10_cross_entropy_empty_division (fun _ => 0) (fun _ => 1)).2 _ _ _ (by simp)⟩

/-- C7: for positive standard deviations, `calculate_pairwise_prob` satisfies the
symmetry `p(X,Y) + p(Y,X) = 1` exactly (in the real-number embedding), and at the
neutral point μ_X = μ_Y, σ_X = σ_Y it returns 1/2. -/
theorem C7_probability_symmetry (mu_X mu_Y sigma_X sigma_Y : ℝ)
    (hX : 0 < sigma_X) (hY : 0 < sigma_Y) :
    calculate_pairwise_prob mu_X mu_Y sigma_X sigma_Y
        + calculate_pairwise_prob mu_Y mu_X sigma_Y sigma_X = 1 ∧
    (mu_X = mu_Y → sigma_X = sigma_Y →
      calculate_pairwise_prob mu_X mu_Y sigma_X sigma_Y = 1 / 2) := by
  constructor
  · simp only [calculate_pairwise_prob]
    have harg : (mu_Y - mu_X) / Real.sqrt (sigma_Y ^ 2 + sigma_X ^ 2)
        = -((mu_X - mu_Y) / Real.sqrt (sigma_X ^ 2 + sigma_Y ^ 2)) := by
      rw [add_comm (sigma_Y ^ 2), ← neg_div, neg_sub]
    rw [harg, normCdf_add_neg]
  · intro h1 _
    subst h1
    simp [calculate_pairwise_prob, normCdf_zero]

/-- Witness for C7 at μ_X = μ_Y = 0, σ_X = σ_Y = 1. -/
theorem C7_probability_symmetry_witness :
    calculate_pairwise_prob 0 0 1 1 + calculate_pairwise_prob 0 0 1 1 = 1 ∧
    calculate_pairwise_prob 0 0 1 1 = 1 / 2 :=
  ⟨(C7_probability_symmetry 0 0 1 1 one_pos one_pos).1,
   (C7_probability_symmetry 0 0 1 1 one_pos one_pos).2 rfl rfl⟩

/-- C8: for fixed positive standard deviations, `calculate_pairwise_prob` is
strictly increasing in the mean difference μ_X − μ_Y. -/
theorem C8_probability_strictly_monotone (sigma_X sigma_Y : ℝ)
    (hX : 0 < sigma_X) (hY : 0 < sigma_Y)
    (mu_X mu_Y mu_X' mu_Y' : ℝ) (h : mu_X - mu_Y < mu_X' - mu_Y') :
    calculate_pairwise_prob mu_X mu_Y sigma_X sigma_Y
      < calculate_pairwise_prob mu_X' mu_Y' sigma_X sigma_Y := by
  have hs : 0 < Real.sqrt (sigma_X ^ 2 + sigma_Y ^ 2) :=
    Real.sqrt_pos.mpr (by positivity)
  exact normCdf_strictMono ((div_lt_div_right hs).mpr h)

/-- Witness for C8 at σ = 1 and mean differences 0 < 1. -/
theorem C8_probability_strictly_monotone_witness :
    calculate_pairwise_prob 0 0 1 1 < calculate_pairwise_prob 1 0 1 1 :=
  C8_probability_strictly_monotone 1 1 one_pos one_pos 0 0 1 0 (by norm_num)

/-- C1: for any extraction of the distinct options and any parameter vector of
length `2·n`, `neg_log_likelihood` (with its dictionary-mutation loop) equals the
spec's sum: first `n` entries read as μ, `exp` of the last `n` as σ, and each
record contributes `-log p` when `chosen == A`, else `-log (1 - p + ε)`, with
`p = Φ(d / s)`, `d = μ[A] - μ[B]`, `s = sqrt(σ[A]² + σ[B]²) + ε`. -/
theorem C1_neg_log_likelihood_is_spec (options : List String) (data : List Comparison)
    (params : List ℝ) (hval : validExtraction data options)
    (hlen : params.length = 2 * options.length) :
    neg_log_likelihood options data params = nll_spec options data params := by
  have hnd : options.Nodup := hval.nodup_iff.mpr (List.nodup_dedup _)
  have hmem : ∀ c ∈ data, c.A ∈ options ∧ c.B ∈ options := by
    intro c hc
    have hA : c.A ∈ optionTokens data := by
      simp only [optionTokens, List.mem_flatMap]
      exact ⟨c, hc, by simp⟩
    have hB : c.B ∈ optionTokens data := by
      simp only [optionTokens, List.mem_flatMap]
      exact ⟨c, hc, by simp⟩
    exact ⟨hval.mem_iff.mpr (List.mem_dedup.mpr hA),
      hval.mem_iff.mpr (List.mem_dedup.mpr hB)⟩
  simp only [neg_log_likelihood, nll_spec]
  rw [foldl_add_sum, zero_add, ← sum_map_neg]
  congr 1
  apply List.map_congr_left
  intro c hc
  obtain ⟨hA, hB⟩ := hmem c hc
  rw [muAux_eq params options 0 _ c.A hnd hA, muAux_eq params options 0 _ c.B hnd hB,
    sigmaAux_eq params options.length options 0 _ c.A hnd hA,
    sigmaAux_eq params options.length options 0 _ c.B hnd hB]
  rw [show 0 + List.indexOf c.A options = List.indexOf c.A options from by omega,
    show 0 + List.indexOf c.B options = List.indexOf c.B options from by omega,
    show List.indexOf c.A options + options.length
      = options.length + List.indexOf c.A options from by omega,
    show List.indexOf c.B options + options.length
      = options.length + List.indexOf c.B options from by omega]
  by_cases hch : c.chosen = c.A
  · simp [hch]
  · simp [hch]

/-- Witness for C1 at a one-record data set and the zero parameter vector. -/
theorem C1_neg_log_likelihood_is_spec_witness :
    neg_log_likelihood ["A", "B"] [⟨"A", "B", "A"⟩] [0, 0, 0, 0] =
      nll_spec ["A", "B"] [⟨"A", "B", "A"⟩] [0, 0, 0, 0] := by
  have hv : validExtraction [⟨"A", "B", "A"⟩] ["A", "B"] := by
    unfold validExtraction optionTokens
    decide
  exact C1_neg_log_likelihood_is_spec _ _ _ hv (by norm_num)

/-- C2 counterexample: for the malformed record `("A","B","C")` (whose chosen
value "C" is neither option of its record), estimation does not fail: the
extraction is valid, `fit` returns a result (the only raise in the code is the
fewer-than-2-options check), and `neg_log_likelihood` scores the record exactly
as if "B" had been chosen — the malformed record is silently counted as a choice
of B, and no ValidationError occurs. -/
theorem C2_malformed_not_rejected_counterexample :
    validExtraction [⟨"A", "B", "C"⟩] ["A", "B"] ∧
    fit (fun _ => [0, 0, 0, 0]) ["A", "B"] =
      Except.ok ([0, 0], [Real.exp 0, Real.exp 0]) ∧
    neg_log_likelihood ["A", "B"] [⟨"A", "B", "C"⟩] [0, 0, 0, 0] =
      neg_log_likelihood ["A", "B"] [⟨"A", "B", "B"⟩] [0, 0, 0, 0] := by
  refine ⟨by unfold validExtraction optionTokens; decide, ?_, ?_⟩
  · norm_num [fit]
  · simp only [neg_log_likelihood, List.foldl_cons, List.foldl_nil]
    rw [if_neg (by decide : ¬("C" : String) = "A"), if_neg (by decide : ¬("B" : String) = "A")]

/-- C2 amended: a record whose chosen value differs from its A is not rejected;
`fit` performs only the fewer-than-2-distinct-options check and succeeds, and in
the objective such a record falls into the else branch, contributing exactly
what a choice of B would contribute. -/
theorem C2_amended_malformed_scored_as_B (data : List Comparison) (os : List String)
    (optimize : List String → List ℝ)
    (hval : validExtraction data os) (h2 : 2 ≤ numOptions data) :
    (∃ mus sigmas, fit optimize os = Except.ok (mus, sigmas)) ∧
    (∀ (c : Comparison) (params : List ℝ), c.chosen ≠ c.A → c.B ≠ c.A →
      neg_log_likelihood os [c] params = neg_log_likelihood os [⟨c.A, c.B, c.B⟩] params) := by
  constructor
  · have hlen : 2 ≤ os.length := by
      have h : os.length = numOptions data := hval.length_eq
      omega
    exact ⟨(optimize os).take os.length, ((optimize os).drop os.length).map Real.exp,
      by simp [fit, Nat.not_lt.mpr hlen]⟩
  · intro c params hc hBA
    simp only [neg_log_likelihood, List.foldl_cons, List.foldl_nil]
    rw [if_neg hc, if_neg hBA]

/-- Witness for the amended C2 at the malformed record `("A","B","C")`. -/
theorem C2_amended_malformed_scored_as_B_witness :
    (∃ mus sigmas, fit (fun _ => [0, 0, 0, 0]) ["A", "B"] = Except.ok (mus, sigmas)) ∧
    neg_log_likelihood ["A", "B"] [⟨"A", "B", "C"⟩] [1, 0, 0, 0] =
      neg_log_likelihood ["A", "B"] [⟨"A", "B", "B"⟩] [1, 0, 0, 0] := by
  have h := C2_amended_malformed_scored_as_B [⟨"A", "B", "C"⟩] ["A", "B"]
    (fun _ => [0, 0, 0, 0])
    (by unfold validExtraction optionTokens; decide)
    (by unfold numOptions optionTokens; decide)
  exact ⟨h.1, h.2 ⟨"A", "B", "C"⟩ [1, 0, 0, 0] (by decide) (by decide)⟩

/-- C3 counterexample: `calculate_cross_entropy` applies no epsilon inside its
logarithms — on the record `("A","B","A")` with μ ≡ 0, σ ≡ 1 the code returns
`log 2` (from `-log(1/2)`), which differs from what the spec's
"additive epsilon inside the logarithms" body returns. -/
theorem C3_no_epsilon_counterexample :
    calculate_cross_entropy [⟨"A", "B", "A"⟩] (fun _ => 0) (fun _ => 1) =
      some (Real.log 2) ∧
    calculate_cross_entropy [⟨"A", "B", "A"⟩] (fun _ => 0) (fun _ => 1) ≠
      calculate_cross_entropy_specEps [⟨"A", "B", "A"⟩] (fun _ => 0) (fun _ => 1) := by
  have hp : calculate_pairwise_prob (0 : ℝ) 0 1 1 = 1 / 2 := by
    simp [calculate_pairwise_prob, normCdf_zero]
  have hlog : Real.log (1 / 2 : ℝ) = -Real.log 2 := by
    rw [show (1 / 2 : ℝ) = 2⁻¹ from by norm_num, Real.log_inv]
  have h1 : calculate_cross_entropy [⟨"A", "B", "A"⟩] (fun _ => 0) (fun _ => 1) =
      some (Real.log 2) := by
    simp only [calculate_cross_entropy, pydiv, List.foldl_cons, List.foldl_nil, hp]
    norm_num [hlog]
  have h2 : calculate_cross_entropy_specEps [⟨"A", "B", "A"⟩] (fun _ => 0) (fun _ => 1) =
      some (-Real.log (1 / 2 + epsilon)) := by
    simp only [calculate_cross_entropy_specEps, pydiv, List.foldl_cons, List.foldl_nil, hp]
    norm_num
  refine ⟨h1, ?_⟩
  rw [h1, h2]
  intro hcontra
  have heq : Real.log 2 = -Real.log (1 / 2 + epsilon) := Option.some.inj hcontra
  have hlt : Real.log (1 / 2) < Real.log (1 / 2 + epsilon) := by
    apply Real.log_lt_log (by norm_num)
    norm_num [epsilon]
  have hhalf : Real.log (1 / 2) = -Real.log 2 := by
    rw [show (1 / 2 : ℝ) = 2⁻¹ from by norm_num, Real.log_inv]
  rw [hhalf] at hlt
  linarith

/-- C3 amended: `calculate_cross_entropy` applies no epsilon inside its
logarithms, but in the real-number semantics the arguments of both logarithms
are nevertheless strictly positive — the model probability `Φ(·)` lies strictly
between 0 and 1 — and the function returns the mean of the per-comparison binary
cross-entropy terms over all comparisons. -/
theorem C3_amended_mean_and_positive_log_args (data : List Comparison)
    (mu sigma : String → ℝ) (hne : data ≠ []) (hsig : ∀ o, 0 < sigma o) :
    (∀ c ∈ data,
        0 < calculate_pairwise_prob (mu c.A) (mu c.B) (sigma c.A) (sigma c.B) ∧
        calculate_pairwise_prob (mu c.A) (mu c.B) (sigma c.A) (sigma c.B) < 1) ∧
    calculate_cross_entropy data mu sigma =
      some ((data.map (ceTerm mu sigma)).sum / data.length) :=
  ⟨fun _ _ => ⟨normCdf_pos _, normCdf_lt_one _⟩,
    calculate_cross_entropy_eq data mu sigma hne⟩

/-- Witness for the amended C3 at a one-record data set. -/
theorem C3_amended_mean_and_positive_log_args_witness :
    (∀ c ∈ [(⟨"A", "B", "A"⟩ : Comparison)],
        0 < calculate_pairwise_prob ((fun _ => (0:ℝ)) c.A) ((fun _ => (0:ℝ)) c.B)
            ((fun _ => (1:ℝ)) c.A) ((fun _ => (1:ℝ)) c.B) ∧
        calculate_pairwise_prob ((fun _ => (0:ℝ)) c.A) ((fun _ => (0:ℝ)) c.B)
            ((fun _ => (1:ℝ)) c.A) ((fun _ => (1:ℝ)) c.B) < 1) ∧
    calculate_cross_entropy [⟨"A", "B", "A"⟩] (fun _ => 0) (fun _ => 1) =
      some (([(⟨"A", "B", "A"⟩ : Comparison)].map
        (ceTerm (fun _ => 0) (fun _ => 1))).sum / ([(⟨"A", "B", "A"⟩ : Comparison)].length)) :=
  C3_amended_mean_and_positive_log_args [⟨"A", "B", "A"⟩] (fun _ => 0) (fun _ => 1)
    (by simp) (fun _ => one_pos)

/-- C6: whenever the optimizer output respects the box bounds of the code
(`[-10,10]` for the first half, `[-10,2]` for the second half), the unpacked
estimates satisfy: every μ lies in `[-10,10]`, and every σ — obtained as
`exp` of a log-σ component — is strictly positive and lies in `[e^-10, e^2]`. -/
theorem C6_sigma_positive_and_bounded (os : List String) (x mus sigmas : List ℝ)
    (hlen : x.length = 2 * os.length)
    (hmu : ∀ i, i < os.length → -10 ≤ x.getD i 0 ∧ x.getD i 0 ≤ 10)
    (hsig : ∀ i, os.length ≤ i → i < 2 * os.length → -10 ≤ x.getD i 0 ∧ x.getD i 0 ≤ 2)
    (hfit : fit (fun _ => x) os = Except.ok (mus, sigmas)) :
    (∀ m ∈ mus, -10 ≤ m ∧ m ≤ 10) ∧
    (∀ s ∈ sigmas, 0 < s ∧ Real.exp (-10) ≤ s ∧ s ≤ Real.exp 2) := by
  by_cases hc : os.length < 2
  · simp [fit, hc] at hfit
  · simp only [fit, if_neg hc] at hfit
    have hpair := Except.ok.inj hfit
    have hm : mus = x.take os.length := (Prod.ext_iff.mp hpair).1.symm
    have hs : sigmas = (x.drop os.length).map Real.exp := (Prod.ext_iff.mp hpair).2.symm
    subst hm hs
    constructor
    · intro m hm2
      obtain ⟨i, hi, hget⟩ := List.mem_iff_getElem.mp hm2
      have hi' := hi
      rw [List.length_take] at hi'
      have hilen : i < os.length := lt_of_lt_of_le hi' (min_le_left _ _)
      have hix : i < x.length := lt_of_lt_of_le hi' (min_le_right _ _)
      rw [List.getElem_take] at hget
      have hb := hmu i hilen
      rw [List.getD_eq_getElem x 0 hix] at hb
      rw [← hget]
      exact hb
    · intro s hs2
      obtain ⟨t, ht, hexp⟩ := List.mem_map.mp hs2
      obtain ⟨j, hj, hget⟩ := List.mem_iff_getElem.mp ht
      have hj' := hj
      rw [List.length_drop] at hj'
      rw [List.getElem_drop] at hget
      have hb := hsig (os.length + j) (by omega) (by omega)
      rw [List.getD_eq_getElem x 0 (by omega)] at hb
      rw [← hexp, ← hget]
      exact ⟨Real.exp_pos _, Real.exp_le_exp.mpr hb.1, Real.exp_le_exp.mpr hb.2⟩

/-- Witness for C6 at the zero parameter vector over two options. -/
theorem C6_sigma_positive_and_bounded_witness :
    fit (fun _ => [0, 0, 0, 0]) ["A", "B"] =
      Except.ok ([0, 0], [Real.exp 0, Real.exp 0]) ∧
    (∀ m ∈ ([0, 0] : List ℝ), -10 ≤ m ∧ m ≤ 10) ∧
    (∀ s ∈ [Real.exp 0, Real.exp 0], 0 < s ∧ Real.exp (-10) ≤ s ∧ s ≤ Real.exp 2) := by
  have hfit : fit (fun _ => ([0, 0, 0, 0] : List ℝ)) ["A", "B"]
      = Except.ok ([0, 0], [Real.exp 0, Real.exp 0]) := by
    norm_num [fit]
  have hgetD : ∀ i, (([0, 0, 0, 0] : List ℝ)).getD i 0 = 0 := by
    intro i
    rcases i with _ | _ | _ | _ | i
    · rfl
    · rfl
    · rfl
    · rfl
    · apply List.getD_eq_default
      simp
  have h := C6_sigma_positive_and_bounded ["A", "B"] [0, 0, 0, 0] [0, 0]
    [Real.exp 0, Real.exp 0] (by norm_num)
    (fun i _ => by rw [hgetD]; norm_num)
    (fun i _ _ => by rw [hgetD]; norm_num)
    hfit
  exact ⟨hfit, h.1, h.2⟩

/-- C4: the code's `options = list(set(...))` pins no canonical order — the
objective's parameter-vector indexing genuinely depends on which enumeration
of the distinct options the set iteration yields.  Both `["A","B"]` and
`["B","A"]` are possible extractions for the same data, and the embedded
objective evaluates differently under them at the same parameter vector. -/
theorem C4_option_order_affects_indexing :
    validExtraction [⟨"A", "B", "A"⟩] ["A", "B"] ∧
    validExtraction [⟨"A", "B", "A"⟩] ["B", "A"] ∧
    neg_log_likelihood ["A", "B"] [⟨"A", "B", "A"⟩] [1, 0, 0, 0] ≠
      neg_log_likelihood ["B", "A"] [⟨"A", "B", "A"⟩] [1, 0, 0, 0] := by
  refine ⟨by unfold validExtraction optionTokens; decide,
          by unfold validExtraction optionTokens; decide, ?_⟩
  have hsq : (0 : ℝ) < Real.sqrt 2 := Real.sqrt_pos.mpr (by norm_num)
  have hz : (0 : ℝ) < 1 / (Real.sqrt 2 + epsilon) := by
    apply div_pos one_pos
    have he : (0 : ℝ) < epsilon := by norm_num [epsilon]
    linarith
  have e1 : neg_log_likelihood ["A", "B"] [⟨"A", "B", "A"⟩] [1, 0, 0, 0] =
      -Real.log (normCdf (1 / (Real.sqrt 2 + epsilon))) := by
    simp only [neg_log_likelihood, List.foldl_cons, List.foldl_nil,
      List.length_cons, List.length_nil]
    rw [muAux_eq _ _ _ _ _ (by decide) (by decide),
      muAux_eq _ _ _ _ _ (by decide) (by decide),
      sigmaAux_eq _ _ _ _ _ _ (by decide) (by decide),
      sigmaAux_eq _ _ _ _ _ _ (by decide) (by decide)]
    rw [show List.indexOf "A" ["A", "B"] = 0 from by decide,
      show List.indexOf "B" ["A", "B"] = 1 from by decide]
    rw [show ([1, 0, 0, 0] : List ℝ).getD (0 + 0) 0 = 1 from rfl,
      show ([1, 0, 0, 0] : List ℝ).getD (0 + 1) 0 = 0 from rfl,
      show ([1, 0, 0, 0] : List ℝ).getD (0 + 0 + (0 + 1 + 1)) 0 = 0 from rfl,
      show ([1, 0, 0, 0] : List ℝ).getD (0 + 1 + (0 + 1 + 1)) 0 = 0 from rfl]
    norm_num [Real.exp_zero]
  have e2 : neg_log_likelihood ["B", "A"] [⟨"A", "B", "A"⟩] [1, 0, 0, 0] =
      -Real.log (normCdf (-1 / (Real.sqrt 2 + epsilon))) := by
    simp only [neg_log_likelihood, List.foldl_cons, List.foldl_nil,
      List.length_cons, List.length_nil]
    rw [muAux_eq _ _ _ _ _ (by decide) (by decide),
      muAux_eq _ _ _ _ _ (by decide) (by decide),
      sigmaAux_eq _ _ _ _ _ _ (by decide) (by decide),
      sigmaAux_eq _ _ _ _ _ _ (by decide) (by decide)]
    rw [show List.indexOf "A" ["B", "A"] = 1 from by decide,
      show List.indexOf "B" ["B", "A"] = 0 from by decide]
    rw [show ([1, 0, 0, 0] : List ℝ).getD (0 + 0) 0 = 1 from rfl,
      show ([1, 0, 0, 0] : List ℝ).getD (0 + 1) 0 = 0 from rfl,
      show ([1, 0, 0, 0] : List ℝ).getD (0 + 0 + (0 + 1 + 1)) 0 = 0 from rfl,
      show ([1, 0, 0, 0] : List ℝ).getD (0 + 1 + (0 + 1 + 1)) 0 = 0 from rfl]
    norm_num [Real.exp_zero]
  rw [e1, e2]
  intro hcontra
  have hneg : (-1 : ℝ) / (Real.sqrt 2 + epsilon) = -(1 / (Real.sqrt 2 + epsilon)) := by
    ring
  have hmono : normCdf (-(1 / (Real.sqrt 2 + epsilon)))
      < normCdf (1 / (Real.sqrt 2 + epsilon)) :=
    normCdf_strictMono (by linarith)
  have hlog := Real.log_lt_log (normCdf_pos _) hmono
  rw [hneg] at hcontra
  linarith

/-- The z-score of the example's B-vs-A pairs under the recorded fitted
parameters: `(0.57 - (-0.57)) / sqrt(1.20² + 1.20²)`. -/
noncomputable def zBA : ℝ := 1.14 / Real.sqrt 2.88

/-- The z-score of the example's pairs against C under the recorded fitted
parameters: `0.57 / sqrt(1.20² + 0.57²)`. -/
noncomputable def zBC : ℝ := 0.57 / Real.sqrt 1.7649

lemma sqrt288_pos : (0 : ℝ) < Real.sqrt 2.88 := Real.sqrt_pos.mpr (by norm_num)

lemma sqrt17649_pos : (0 : ℝ) < Real.sqrt 1.7649 := Real.sqrt_pos.mpr (by norm_num)

lemma sqrt288_lt : Real.sqrt 2.88 < 1.69707 :=
  (Real.sqrt_lt' (by norm_num)).mpr (by norm_num)

lemma sqrt288_gt : (1.69705 : ℝ) < Real.sqrt 2.88 :=
  (Real.lt_sqrt (by norm_num)).mpr (by norm_num)

lemma sqrt17649_lt : Real.sqrt 1.7649 < 1.3285 :=
  (Real.sqrt_lt' (by norm_num)).mpr (by norm_num)

lemma sqrt17649_gt : (1.3284 : ℝ) < Real.sqrt 1.7649 :=
  (Real.lt_sqrt (by norm_num)).mpr (by norm_num)

lemma zBA_nonneg : 0 ≤ zBA := div_nonneg (by norm_num) (Real.sqrt_nonneg _)

lemma zBC_nonneg : 0 ≤ zBC := div_nonneg (by norm_num) (Real.sqrt_nonneg _)

lemma zBA_ge : (0.67174 : ℝ) ≤ zBA := by
  rw [zBA, le_div_iff sqrt288_pos]
  nlinarith [sqrt288_lt]

lemma zBA_le : zBA ≤ 0.67176 := by
  rw [zBA, div_le_iff sqrt288_pos]
  nlinarith [sqrt288_gt]

lemma zBC_ge : (0.42905 : ℝ) ≤ zBC := by
  rw [zBC, le_div_iff sqrt17649_pos]
  nlinarith [sqrt17649_lt]

lemma zBC_le : zBC ≤ 0.42909 := by
  rw [zBC, div_le_iff sqrt17649_pos]
  nlinarith [sqrt17649_gt]

lemma sq_zBA : zBA ^ 2 = 1.2996 / 2.88 := by
  rw [zBA, div_pow, Real.sq_sqrt (by norm_num : (0:ℝ) ≤ 2.88)]
  norm_num

lemma sq_zBC : zBC ^ 2 = 0.3249 / 1.7649 := by
  rw [zBC, div_pow, Real.sq_sqrt (by norm_num : (0:ℝ) ≤ 1.7649)]
  norm_num

lemma stdGaussian_zBA_ge : (0.774375 : ℝ) ≤ stdGaussian zBA := by
  simp only [stdGaussian, sq_zBA]
  have h := Real.add_one_le_exp (-(1.2996 / 2.88) / 2 : ℝ)
  have he : (-(1.2996 / 2.88) / 2 : ℝ) + 1 = 0.774375 := by norm_num
  linarith

lemma stdGaussian_zBC_ge : (0.90795 : ℝ) ≤ stdGaussian zBC := by
  simp only [stdGaussian, sq_zBC]
  have h := Real.add_one_le_exp (-(0.3249 / 1.7649) / 2 : ℝ)
  have he : (0.90795 : ℝ) ≤ (-(0.3249 / 1.7649) / 2 : ℝ) + 1 := by norm_num
  linarith

lemma Q1_ge : (0.7075 : ℝ) ≤ normCdf zBA := by
  have h := normCdf_ge_of_nonneg zBA zBA_nonneg
  have hnum : (0.67174 * 0.774375 : ℝ) ≤ zBA * stdGaussian zBA :=
    mul_le_mul zBA_ge stdGaussian_zBA_ge (by norm_num)
      (le_trans (by norm_num) zBA_ge)
  have hq : (0.67174 * 0.774375 : ℝ) / 2.50664
      ≤ zBA * stdGaussian zBA / Real.sqrt (2 * Real.pi) :=
    div_le_div (le_trans (by norm_num) hnum) hnum sqrt_two_pi_pos sqrt_two_pi_lt.le
  have hval : (0.2075 : ℝ) ≤ (0.67174 * 0.774375 : ℝ) / 2.50664 := by norm_num
  linarith

lemma Q2_ge : (0.6554 : ℝ) ≤ normCdf zBC := by
  have h := normCdf_ge_of_nonneg zBC zBC_nonneg
  have hnum : (0.42905 * 0.90795 : ℝ) ≤ zBC * stdGaussian zBC :=
    mul_le_mul zBC_ge stdGaussian_zBC_ge (by norm_num)
      (le_trans (by norm_num) zBC_ge)
  have hq : (0.42905 * 0.90795 : ℝ) / 2.50664
      ≤ zBC * stdGaussian zBC / Real.sqrt (2 * Real.pi) :=
    div_le_div (le_trans (by norm_num) hnum) hnum sqrt_two_pi_pos sqrt_two_pi_lt.le
  have hval : (0.1554 : ℝ) ≤ (0.42905 * 0.90795 : ℝ) / 2.50664 := by norm_num
  linarith

lemma Q3_ge : (0.232 : ℝ) ≤ normCdf (-zBA) := by
  have h := normCdf_neg_ge zBA zBA_nonneg
  have hq : zBA / Real.sqrt (2 * Real.pi) ≤ (0.67176 : ℝ) / 2.50662 :=
    div_le_div (by norm_num) zBA_le (by norm_num) sqrt_two_pi_gt.le
  have hval : (0.67176 : ℝ) / 2.50662 ≤ 0.268 := by norm_num
  linarith

lemma Q4_ge : (0.3288 : ℝ) ≤ normCdf (-zBC) := by
  have h := normCdf_neg_ge zBC zBC_nonneg
  have hq : zBC / Real.sqrt (2 * Real.pi) ≤ (0.42909 : ℝ) / 2.50662 :=
    div_le_div (by norm_num) zBC_le (by norm_num) sqrt_two_pi_gt.le
  have hval : (0.42909 : ℝ) / 2.50662 ≤ 0.1712 := by norm_num
  linarith

lemma ceTerm_chosen_first (muf sigmaf : String → ℝ) (c : Comparison)
    (h : c.chosen = c.A) :
    ceTerm muf sigmaf c = -Real.log (normCdf
      ((muf c.A - muf c.B) / Real.sqrt (sigmaf c.A ^ 2 + sigmaf c.B ^ 2))) := by
  simp [ceTerm, calculate_pairwise_prob, h]

lemma one_sub_normCdf_neg (x : ℝ) : 1 - normCdf (-x) = normCdf x := by
  rw [one_sub_normCdf, neg_neg]

lemma ceTerm_chosen_second (muf sigmaf : String → ℝ) (c : Comparison)
    (h : ¬c.chosen = c.A) :
    ceTerm muf sigmaf c = -Real.log (normCdf
      (-((muf c.A - muf c.B) / Real.sqrt (sigmaf c.A ^ 2 + sigmaf c.B ^ 2)))) := by
  rw [← one_sub_normCdf]
  simp [ceTerm, calculate_pairwise_prob, h]

lemma exampleTerms : exampleData.map (ceTerm fittedMu fittedSigma) =
    [-Real.log (normCdf zBA), -Real.log (normCdf zBC), -Real.log (normCdf zBC),
     -Real.log (normCdf (-zBA)), -Real.log (normCdf zBC), -Real.log (normCdf zBC),
     -Real.log (normCdf zBA), -Real.log (normCdf (-zBC)), -Real.log (normCdf (-zBC)),
     -Real.log (normCdf zBA)] := by
  have mA : fittedMu "A" = -0.57 := rfl
  have mB : fittedMu "B" = 0.57 := rfl
  have mC : fittedMu "C" = 0 := rfl
  have sA : fittedSigma "A" = 1.20 := rfl
  have sB : fittedSigma "B" = 1.20 := rfl
  have sC : fittedSigma "C" = 0.57 := rfl
  simp only [exampleData, List.map_cons, List.map_nil]
  rw [ceTerm_chosen_first _ _ _ (by decide), ceTerm_chosen_second _ _ _ (by decide),
    ceTerm_chosen_first _ _ _ (by decide), ceTerm_chosen_first _ _ _ (by decide),
    ceTerm_chosen_first _ _ _ (by decide), ceTerm_chosen_second _ _ _ (by decide),
    ceTerm_chosen_first _ _ _ (by decide), ceTerm_chosen_first _ _ _ (by decide),
    ceTerm_chosen_second _ _ _ (by decide)]
  simp only [mA, mB, mC, sA, sB, sC]
  norm_num [zBA, zBC, neg_div]

/-- C9: for the worked example's ten records over options {A,B,C} and the fitted
parameters recorded in the source, the estimated mean ordering satisfies
μ_B > μ_C > μ_A, and the cross-entropy of the data under those parameters is a
real number lying strictly between 0 and log 2 (the cross-entropy of an
always-0.5 predictor). -/
theorem C9_worked_example_ordering_and_cross_entropy :
    fittedMu "B" > fittedMu "C" ∧ fittedMu "C" > fittedMu "A" ∧
    ∃ ce : ℝ, calculate_cross_entropy exampleData fittedMu fittedSigma = some ce ∧
      0 < ce ∧ ce < Real.log 2 := by
  have hm1 : fittedMu "B" = 0.57 := rfl
  have hm2 : fittedMu "C" = 0 := rfl
  have hm3 : fittedMu "A" = -0.57 := rfl
  refine ⟨by rw [hm1, hm2]; norm_num, by rw [hm2, hm3]; norm_num, ?_⟩
  have hne : exampleData ≠ [] := by simp [exampleData]
  have hce := calculate_cross_entropy_eq exampleData fittedMu fittedSigma hne
  have hlen : ((exampleData.length : ℕ) : ℝ) = 10 := by simp [exampleData]
  set S := (exampleData.map (ceTerm fittedMu fittedSigma)).sum with hS
  have hsum : S = 3 * (-Real.log (normCdf zBA)) + 4 * (-Real.log (normCdf zBC))
      + (-Real.log (normCdf (-zBA))) + 2 * (-Real.log (normCdf (-zBC))) := by
    rw [hS, exampleTerms]
    simp only [List.sum_cons, List.sum_nil]
    ring
  have hterm_pos : ∀ w : ℝ, 0 < -Real.log (normCdf w) := by
    intro w
    have h1 := normCdf_pos w
    have h2 := normCdf_lt_one w
    have h3 := Real.log_neg h1 h2
    linarith
  have hSpos : 0 < S := by
    rw [hsum]
    have p1 := hterm_pos zBA
    have p2 := hterm_pos zBC
    have p3 := hterm_pos (-zBA)
    have p4 := hterm_pos (-zBC)
    linarith
  have hb1 : -Real.log (normCdf zBA) ≤ -Real.log 0.7075 := by
    have h := (Real.log_le_log_iff (by norm_num) (normCdf_pos zBA)).mpr Q1_ge
    linarith
  have hb2 : -Real.log (normCdf zBC) ≤ -Real.log 0.6554 := by
    have h := (Real.log_le_log_iff (by norm_num) (normCdf_pos zBC)).mpr Q2_ge
    linarith
  have hb3 : -Real.log (normCdf (-zBA)) ≤ -Real.log 0.232 := by
    have h := (Real.log_le_log_iff (by norm_num) (normCdf_pos (-zBA))).mpr Q3_ge
    linarith
  have hb4 : -Real.log (normCdf (-zBC)) ≤ -Real.log 0.3288 := by
    have h := (Real.log_le_log_iff (by norm_num) (normCdf_pos (-zBC))).mpr Q4_ge
    linarith
  have hprod : Real.log ((0.7075 : ℝ) ^ 3 * 0.6554 ^ 4 * 0.232 * 0.3288 ^ 2)
      = 3 * Real.log 0.7075 + 4 * Real.log 0.6554 + Real.log 0.232
        + 2 * Real.log 0.3288 := by
    rw [Real.log_mul (by norm_num) (by norm_num), Real.log_mul (by norm_num) (by norm_num),
      Real.log_mul (by norm_num) (by norm_num), Real.log_pow, Real.log_pow, Real.log_pow]
    push_cast
    ring
  have hlog_prod_gt : -Real.log 1024
      < Real.log ((0.7075 : ℝ) ^ 3 * 0.6554 ^ 4 * 0.232 * 0.3288 ^ 2) := by
    have h1 : Real.log ((1 : ℝ) / 1024)
        < Real.log ((0.7075 : ℝ) ^ 3 * 0.6554 ^ 4 * 0.232 * 0.3288 ^ 2) :=
      Real.log_lt_log (by norm_num) (by norm_num)
    have h2 : Real.log ((1 : ℝ) / 1024) = -Real.log 1024 := by
      rw [show ((1 : ℝ) / 1024) = (1024 : ℝ)⁻¹ from by norm_num, Real.log_inv]
    linarith
  have hlog1024 : Real.log (1024 : ℝ) = 10 * Real.log 2 := by
    rw [show (1024 : ℝ) = 2 ^ 10 from by norm_num, Real.log_pow]
    push_cast
    ring
  have hSlt : S < 10 * Real.log 2 := by
    rw [hsum]
    linarith
  refine ⟨S / ((exampleData.length : ℕ) : ℝ), hce, ?_, ?_⟩
  · rw [hlen]
    exact div_pos hSpos (by norm_num)
  · rw [hlen, div_lt_iff (by norm_num : (0 : ℝ) < 10)]
    linarith
